import Mathlib

/-!
Verification of the manticore-manager embedding core.

Shallow embedding of the model lifecycle manager and the multi-field
combiner of the repository:
  server/services/model_manager.py       (ModelManager)
  server/services/multi_field_service.py (MultiFieldService)
  server/services/embedding_service.py   (EmbeddingService)
  server/models/embeddings.py            (enums and pydantic models)
  server/config.py                       (Settings)

Vector arithmetic is modelled over the rationals (exact arithmetic in
place of numpy float64; numpy raises no exception on division by zero,
it produces non-finite junk values, which the rational junk value 0 of
division by zero stands in for).  Unit normalization, which needs a
square root, is modelled over the reals.  External model backends
(torch, sentence-transformers, open_clip) are parameters of the
embedding: a loader function that may fail and an encode oracle.
-/

namespace ManticoreManager

/-! ### Enums from server/models/embeddings.py -/

/-- ModelType enum: text, image, multimodal. -/
inductive ModelType where
  | text
  | image
  | multimodal
deriving DecidableEq

/-- CombineMethod enum with its declared string values. -/
inductive CombineMethod where
  | weighted_average
  | concatenate
  | max_pool
  | sum
deriving DecidableEq

/-- The string value of each CombineMethod member, as declared in the enum. -/
def CombineMethod.value : CombineMethod → String
  | .weighted_average => "weighted_average"
  | .concatenate => "concatenate"
  | .max_pool => "max_pool"
  | .sum => "sum"

/-! ### Combiner: MultiFieldService (multi_field_service.py) -/

/-- Errors the combiner can raise: the ValueError for an unsupported
method string, and the IndexError raised by indexing embeddings[0] on an
empty list. -/
inductive CombineErr where
  | unsupportedMethod (method : String)
  | indexError
deriving DecidableEq

/-- Decidable equality for Except results, used to evaluate the
embedded operations on concrete inputs. -/
instance instDecidableEqExcept {ε α : Type} [DecidableEq ε] [DecidableEq α] :
    DecidableEq (Except ε α) := fun x y =>
  match x, y with
  | .ok a, .ok b =>
    if h : a = b then isTrue (by rw [h])
    else isFalse (by intro hc; cases hc; exact h rfl)
  | .error a, .error b =>
    if h : a = b then isTrue (by rw [h])
    else isFalse (by intro hc; cases hc; exact h rfl)
  | .ok _, .error _ => isFalse (by intro hc; cases hc)
  | .error _, .ok _ => isFalse (by intro hc; cases hc)

/-- Dimension reconciliation used by weighted_average and max_pooling:
pad with zeros when shorter than the target, truncate when longer. -/
def reconcile (targetDim : Nat) (v : List ℚ) : List ℚ :=
  if v.length < targetDim then v ++ List.replicate (targetDim - v.length) 0
  else v.take targetDim

/-- The all-zero vector of a given length. -/
def zeroVec (n : Nat) : List ℚ := List.replicate n 0

/-- Elementwise addition of two vectors. -/
def vecAdd (a b : List ℚ) : List ℚ := List.zipWith (fun x y => x + y) a b

/-- Scaling of a vector by a scalar. -/
def vecScale (w : ℚ) (v : List ℚ) : List ℚ := v.map (fun x => w * x)

/-- MultiFieldService weighted average: reconcile every embedding to the
length of the first embedding, divide the weights by their sum, and sum the
weight-scaled rows.  Indexing embeddings[0] on an empty list raises. -/
def weightedAverage (embeddings : List (List ℚ)) (weights : List ℚ) :
    Except CombineErr (List ℚ) :=
  match embeddings with
  | [] => .error .indexError
  | e0 :: _ =>
    let targetDim := e0.length
    let processed := embeddings.map (reconcile targetDim)
    let wsum := weights.sum
    let normalized := weights.map (fun w => w / wsum)
    .ok ((List.zipWith (fun v w => vecScale w v) processed normalized).foldl
          vecAdd (zeroVec targetDim))

/-- MultiFieldService concatenation: scale each embedding by its weight
and concatenate in input order (zip stops at the shorter list, as in
Python). -/
def concatenate (embeddings : List (List ℚ)) (weights : List ℚ) : List ℚ :=
  (List.zipWith (fun e w => vecScale w e) embeddings weights).flatten

/-- MultiFieldService max pooling: scale each embedding by its weight,
reconcile to the length of the first scaled embedding, and take the
elementwise maximum.  Indexing scaled[0] on an empty list raises. -/
def maxPooling (embeddings : List (List ℚ)) (weights : List ℚ) :
    Except CombineErr (List ℚ) :=
  let scaled := List.zipWith (fun e w => vecScale w e) embeddings weights
  match scaled with
  | [] => .error .indexError
  | s0 :: rest =>
    let targetDim := s0.length
    .ok ((rest.map (reconcile targetDim)).foldl
          (fun acc v => List.zipWith max acc v) (reconcile targetDim s0))

/-- MultiFieldService combine dispatch: matches the three literal method
strings and raises ValueError for anything else. -/
def combineEmbeddings (embeddings : List (List ℚ)) (weights : List ℚ)
    (method : String) : Except CombineErr (List ℚ) :=
  if method = "weighted_average" then weightedAverage embeddings weights
  else if method = "concatenate" then .ok (concatenate embeddings weights)
  else if method = "max_pooling" then maxPooling embeddings weights
  else .error (.unsupportedMethod method)

/-- Reference definition of the weighted average, written from the spec:
reconcile every vector to the length of the first vector, normalize the
weights by their sum, and form at each coordinate the weighted sum of
the reconciled vectors. -/
def weightedAverageSpec (embeddings : List (List ℚ)) (weights : List ℚ) :
    List ℚ :=
  match embeddings with
  | [] => []
  | e0 :: _ =>
    let d := e0.length
    let wsum := weights.sum
    (List.range d).map (fun j =>
      ((embeddings.zip weights).map
        (fun p => (p.2 / wsum) * ((reconcile d p.1).getD j 0))).sum)

/-! ### Final normalization (multi_field_service.py and embedding_service.py) -/

/-- Euclidean norm of a vector, np.linalg.norm. -/
noncomputable def l2norm (v : List ℝ) : ℝ := Real.sqrt (v.map (fun x => x ^ 2)).sum

/-- MultiFieldService normalization of a single embedding: divide by the
norm only when the norm is positive, otherwise return the vector
unchanged. -/
noncomputable def normalizeEmbedding (v : List ℝ) : List ℝ :=
  if 0 < l2norm v then v.map (fun x => x / l2norm v) else v

/-- EmbeddingService normalization of a batch: the same positive-norm
guarded division applied to each embedding of the list. -/
noncomputable def normalizeEmbeddings (embeddings : List (List ℝ)) : List (List ℝ) :=
  embeddings.map (fun v =>
    if 0 < l2norm v then v.map (fun x => x / l2norm v) else v)

/-- The final step of generate_multi_field_embeddings: normalization is
applied only when the request asks for it. -/
noncomputable def applyFinalNormalization (requested : Bool) (v : List ℝ) : List ℝ :=
  if requested then normalizeEmbedding v else v

/-! ### Model manager state (model_manager.py) -/

/-- The payload the loaders build for a model (the dict with the native
handles); only the recorded dimensionality is observable here. -/
structure ModelData where
  dimensions : Nat
deriving DecidableEq

/-- ModelInfo pydantic model. -/
structure ModelInfo where
  name : String
  type : ModelType
  dimensions : Nat
  is_loaded : Bool
  description : Option String
deriving DecidableEq

/-- One entry of the static _available_models registry. -/
structure RegistryEntry where
  type : ModelType
  dimensions : Nat
  description : String
  use_auto_model : Bool
deriving DecidableEq

/-- The static _available_models registry of ModelManager. -/
def availableModels : List (String × RegistryEntry) :=
  [ ("sentence-transformers/all-MiniLM-L6-v2",
      ⟨.text, 384, "Fast and efficient text embedding model", false⟩),
    ("sentence-transformers/all-mpnet-base-v2",
      ⟨.text, 768, "High-quality text embedding model", false⟩),
    ("sentence-transformers/paraphrase-multilingual-MiniLM-L12-v2",
      ⟨.text, 384, "Multilingual text embedding model", false⟩),
    ("openai/clip-vit-base-patch32",
      ⟨.multimodal, 512, "CLIP model for text and image embeddings", false⟩),
    ("sentence-transformers/clip-ViT-B-32",
      ⟨.multimodal, 512, "Sentence-transformers CLIP model", false⟩),
    ("Marqo/marqo-ecommerce-embeddings-B",
      ⟨.multimodal, 768, "Marqo ecommerce embedding model", true⟩),
    ("Marqo/marqo-ecommerce-embeddings-L",
      ⟨.multimodal, 1024, "Marqo ecommerce embedding model (large)", true⟩) ]

/-- The mutable state of ModelManager: the _models OrderedDict (head is
the least recently used entry, tail the most recently used) and the
_model_info dict. -/
structure ManagerState where
  models : List (String × ModelData)
  modelInfo : List (String × ModelInfo)
deriving DecidableEq

/-- The state at construction time: both dicts empty. -/
def initialState : ManagerState := ⟨[], []⟩

/-- Removal of the entry of a key from an association list (del d[k]). -/
def eraseKey (k : String) (l : List (String × ModelData)) :
    List (String × ModelData) :=
  l.eraseP (fun p => p.1 == k)

/-- Dict assignment d[k] = v: replace in place when present, else append. -/
def setInfo (k : String) (v : ModelInfo) (l : List (String × ModelInfo)) :
    List (String × ModelInfo) :=
  if (l.lookup k).isSome then
    l.map (fun p => if p.1 = k then (k, v) else p)
  else l ++ [(k, v)]

/-- Mark the recorded ModelInfo of a key as unloaded, as unload_model
does for the evicted name. -/
def setInfoUnloaded (k : String) (l : List (String × ModelInfo)) :
    List (String × ModelInfo) :=
  l.map (fun p => if p.1 = k then (p.1, { p.2 with is_loaded := false }) else p)

/-- OrderedDict.move_to_end: remove the entry and append it at the tail. -/
def updateLastUsed (name : String) (models : List (String × ModelData)) :
    List (String × ModelData) :=
  match models.lookup name with
  | none => models
  | some d => eraseKey name models ++ [(name, d)]

/-- The eviction loop of _ensure_memory_available: while the number of
resident models is at least the capacity, unload the least recently used
model (the head of the OrderedDict), marking its info as unloaded.  With
capacity zero the loop empties the dict and then raises StopIteration;
the state at that point is the emptied dict, which this function
returns (loadModel flags the failure separately). -/
def evictWhile (cap : Nat) :
    List (String × ModelData) → List (String × ModelInfo) →
    List (String × ModelData) × List (String × ModelInfo)
  | [], info => ([], info)
  | (n, d) :: rest, info =>
    if cap ≤ ((n, d) :: rest).length then
      evictWhile cap rest (setInfoUnloaded n info)
    else ((n, d) :: rest, info)

/-- ModelManager._ensure_memory_available acting on the whole state. -/
def ensureMemoryAvailable (cap : Nat) (s : ManagerState) : ManagerState :=
  ⟨(evictWhile cap s.models s.modelInfo).1, (evictWhile cap s.models s.modelInfo).2⟩

/-- ModelManager.unload_model: delete the model from _models, mark its
info as unloaded, return false when absent. -/
def unloadModel (name : String) (s : ManagerState) : ManagerState × Bool :=
  match s.models.lookup name with
  | none => (s, false)
  | some _ => (⟨eraseKey name s.models, setInfoUnloaded name s.modelInfo⟩, true)

/-- ModelManager.load_model.  The loader parameter stands for the
backend-specific _load_text_model / _load_multimodal_model calls, none
meaning the load raised.  On a cache hit without force_reload the entry
is marked most recently used and its info returned.  Otherwise the
capacity check runs first; with capacity zero its eviction loop raises
after emptying the dict (the result is none and nothing is inserted);
then the loader runs, and on success the model is stored and marked most
recently used and a fresh ModelInfo recorded. -/
def loadModel (cap : Nat) (loader : String → ModelType → Option ModelData)
    (name : String) (mtype : ModelType) (force : Bool) (s : ManagerState) :
    ManagerState × Option ModelInfo :=
  if (s.models.lookup name).isSome ∧ ¬force then
    (⟨updateLastUsed name s.models, s.modelInfo⟩, s.modelInfo.lookup name)
  else
    let s1 := ensureMemoryAvailable cap s
    if cap = 0 then (s1, none)
    else
      match loader name mtype with
      | none => (s1, none)
      | some md =>
        let info : ModelInfo :=
          ⟨name, mtype, md.dimensions, true,
            (availableModels.lookup name).map (fun e => e.description)⟩
        (⟨eraseKey name s1.models ++ [(name, md)], setInfo name info s1.modelInfo⟩,
          some info)

/-- Errors get_embedding can raise: the ValueError for a name neither
resident nor in the registry, a propagated load failure, and the
ValueError for an unsupported content type. -/
inductive EmbError where
  | modelNotLoaded (name : String)
  | loadFailed
  | unsupportedContentType
deriving DecidableEq

/-- The residency check at the top of get_embedding: a resident name
passes through; a non-resident name in the registry is auto-loaded with
the registry type (a failed load propagates); a non-resident unknown
name raises the model-not-loaded ValueError. -/
def getEmbeddingStep (cap : Nat)
    (loader : String → ModelType → Option ModelData) (name : String)
    (s : ManagerState) : ManagerState × Option EmbError :=
  if (s.models.lookup name).isSome then (s, none)
  else
    match availableModels.lookup name with
    | some entry =>
      let r := loadModel cap loader name entry.type false s
      (r.1, if r.2.isSome then none else some .loadFailed)
    | none => (s, some (.modelNotLoaded name))

/-- ModelManager.get_embedding.  The encode parameter stands for the
backend inference paths (_get_text_embeddings / _get_image_embeddings).
After the residency step succeeds, the resident model is marked most
recently used, then content is encoded item by item; the multimodal
content type raises an unsupported-content-type ValueError. -/
def getEmbedding (cap : Nat) (loader : String → ModelType → Option ModelData)
    (encode : ModelData → ModelType → String → List ℚ)
    (name : String) (content : List String) (ctype : ModelType)
    (s : ManagerState) : ManagerState × Except EmbError (List (List ℚ)) :=
  match (getEmbeddingStep cap loader name s).2 with
  | some e => ((getEmbeddingStep cap loader name s).1, .error e)
  | none =>
    match (getEmbeddingStep cap loader name s).1.models.lookup name with
    | none => ((getEmbeddingStep cap loader name s).1, .error .loadFailed)
    | some md =>
      let s2 : ManagerState := ⟨updateLastUsed name (getEmbeddingStep cap loader name s).1.models,
        (getEmbeddingStep cap loader name s).1.modelInfo⟩
      match ctype with
      | .text => (s2, .ok (content.map (encode md .text)))
      | .image => (s2, .ok (content.map (encode md .image)))
      | .multimodal => (s2, .error .unsupportedContentType)

/-- One external call against the manager: load_model or get_embedding. -/
inductive Op where
  | load (name : String) (mtype : ModelType) (force : Bool)
  | embed (name : String) (content : List String) (ctype : ModelType)

/-- Apply one call to the state, keeping only the state. -/
def applyOp (cap : Nat) (loader : String → ModelType → Option ModelData)
    (encode : ModelData → ModelType → String → List ℚ)
    (s : ManagerState) : Op → ManagerState
  | .load n t f => (loadModel cap loader n t f s).1
  | .embed n c t => (getEmbedding cap loader encode n c t s).1

/-- Run a sequence of calls from the construction-time state. -/
def runOps (cap : Nat) (loader : String → ModelType → Option ModelData)
    (encode : ModelData → ModelType → String → List ℚ)
    (ops : List Op) : ManagerState :=
  ops.foldl (applyOp cap loader encode) initialState

/-! ### Native-backend dimensionality resolution (model_manager.py lines 232 to 256) -/

/-- The configuration attributes _load_multimodal_model inspects on a
raw transformers CLIP model, none standing for a missing attribute. -/
structure CLIPConfig where
  text_config_hidden_size : Option Nat
  projection_dim : Option Nat
  hidden_size : Option Nat
  text_embed_dim : Option Nat
deriving DecidableEq

/-- Dimensionality resolution for the native (raw transformers) backend:
the four configuration attributes in declared order, else the width of a
probe text encode (none meaning the probe raised, which lands in the
except branch), else the dimensions declared by the registry for the name,
else the default 512. -/
def resolveNativeDimensions (cfg : CLIPConfig) (probe : Option Nat)
    (registryDims : Option Nat) : Nat :=
  match cfg.text_config_hidden_size with
  | some d => d
  | none =>
    match cfg.projection_dim with
    | some d => d
    | none =>
      match cfg.hidden_size with
      | some d => d
      | none =>
        match cfg.text_embed_dim with
        | some d => d
        | none =>
          match probe with
          | some d => d
          | none =>
            match registryDims with
            | some d => d
            | none => 512

/-! ### Lemmas about the combiner -/

theorem reconcile_length (targetDim : Nat) (v : List ℚ) :
    (reconcile targetDim v).length = targetDim := by
  unfold reconcile
  split
  · simp; omega
  · simp; omega

theorem reconcile_self (v : List ℚ) : reconcile v.length v = v := by
  simp [reconcile]

theorem reconcile_getD (targetDim : Nat) (v : List ℚ) (j : Nat)
    (hj : j < targetDim) :
    (reconcile targetDim v).getD j 0 = v.getD j 0 := by
  unfold reconcile
  split
  · rcases Nat.lt_or_ge j v.length with hv | hv
    · rw [List.getD_eq_getElem _ _ (by simp; omega),
        List.getD_eq_getElem _ _ hv, List.getElem_append_left hv]
    · rw [List.getD_eq_getElem _ _ (by simp; omega), List.getD_eq_default _ _ hv,
        List.getElem_append_right hv]
      simp
  · next h =>
    rcases Nat.lt_or_ge j v.length with hv | hv
    · rw [List.getD_eq_getElem _ _ (by simp; omega), List.getD_eq_getElem _ _ hv,
        List.getElem_take]
    · omega

theorem vecScale_length (w : ℚ) (v : List ℚ) :
    (vecScale w v).length = v.length := by
  simp [vecScale]

theorem vecScale_getD (w : ℚ) (v : List ℚ) (j : Nat) (hj : j < v.length) :
    (vecScale w v).getD j 0 = w * v.getD j 0 := by
  rw [List.getD_eq_getElem _ _ (by simpa [vecScale_length] using hj),
    List.getD_eq_getElem _ _ hj]
  simp [vecScale]

theorem vecAdd_length (a b : List ℚ) :
    (vecAdd a b).length = min a.length b.length := by
  simp [vecAdd]

theorem vecAdd_getD (a b : List ℚ) (j : Nat) (ha : j < a.length)
    (hb : j < b.length) :
    (vecAdd a b).getD j 0 = a.getD j 0 + b.getD j 0 := by
  rw [List.getD_eq_getElem _ _ (by simp [vecAdd_length]; omega),
    List.getD_eq_getElem _ _ ha, List.getD_eq_getElem _ _ hb]
  simp [vecAdd]

theorem foldl_vecAdd_length (rows : List (List ℚ)) (acc : List ℚ)
    (h : ∀ r ∈ rows, r.length = acc.length) :
    (rows.foldl vecAdd acc).length = acc.length := by
  induction rows generalizing acc with
  | nil => rfl
  | cons r rest ih =>
    have hr : r.length = acc.length := h r (by simp)
    have h1 : (vecAdd acc r).length = acc.length := by
      rw [vecAdd_length]; omega
    rw [List.foldl_cons, ih (vecAdd acc r) (by intro x hx; rw [h1]; exact h x (by simp [hx])), h1]

theorem foldl_vecAdd_getD (rows : List (List ℚ)) (acc : List ℚ) (j : Nat)
    (hj : j < acc.length) (h : ∀ r ∈ rows, r.length = acc.length) :
    (rows.foldl vecAdd acc).getD j 0
      = acc.getD j 0 + (rows.map (fun r => r.getD j 0)).sum := by
  induction rows generalizing acc with
  | nil => simp
  | cons r rest ih =>
    have hr : r.length = acc.length := h r (by simp)
    have h1 : (vecAdd acc r).length = acc.length := by
      rw [vecAdd_length]; omega
    rw [List.foldl_cons,
      ih (vecAdd acc r) (by omega) (by intro x hx; rw [h1]; exact h x (by simp [hx])),
      vecAdd_getD _ _ _ hj (by omega)]
    simp [add_assoc]

theorem zeroVec_length (n : Nat) : (zeroVec n).length = n := by
  simp [zeroVec]

theorem zeroVec_getD (n j : Nat) : (zeroVec n).getD j 0 = 0 := by
  rcases Nat.lt_or_ge j n with h | h
  · rw [List.getD_eq_getElem _ _ (by simpa [zeroVec_length] using h)]
    simp [zeroVec]
  · rw [List.getD_eq_default _ _ (by simpa [zeroVec_length] using h)]

theorem weightedAverage_cons (e0 : List ℚ) (rest : List (List ℚ)) (ws : List ℚ) :
    weightedAverage (e0 :: rest) ws =
      .ok ((List.zipWith (fun v w => vecScale w v)
            ((e0 :: rest).map (reconcile e0.length))
            (ws.map (fun w => w / ws.sum))).foldl vecAdd (zeroVec e0.length)) := rfl

theorem mem_scaledRows_length (d : Nat) (c : ℚ) (es : List (List ℚ))
    (ws : List ℚ) (r : List ℚ)
    (hr : r ∈ List.zipWith (fun e w => vecScale (w / c) (reconcile d e)) es ws) :
    r.length = d := by
  induction es generalizing ws with
  | nil => simp at hr
  | cons e es ih =>
    cases ws with
    | nil => simp at hr
    | cons w ws =>
      rcases List.mem_cons.mp hr with h | h
      · rw [h, vecScale_length, reconcile_length]
      · exact ih ws h

theorem weightedAverageSpec_length (e0 : List ℚ) (rest : List (List ℚ))
    (ws : List ℚ) :
    (weightedAverageSpec (e0 :: rest) ws).length = e0.length := by
  simp [weightedAverageSpec]

/-- Pointwise value of the weighted average of a nonempty embedding list. -/
theorem weightedAverage_eq_spec (e0 : List ℚ) (rest : List (List ℚ))
    (ws : List ℚ) :
    weightedAverage (e0 :: rest) ws = .ok (weightedAverageSpec (e0 :: rest) ws) := by
  rw [weightedAverage_cons]
  congr 1
  rw [List.zipWith_map (fun (v : List ℚ) (w : ℚ) => vecScale w v)
    (reconcile e0.length) (fun w => w / ws.sum) (e0 :: rest) ws]
  set es := e0 :: rest with hes
  set d := e0.length with hd
  set c := ws.sum with hc
  have hrows : ∀ r ∈ List.zipWith (fun e w => vecScale (w / c) (reconcile d e)) es ws,
      r.length = (zeroVec d).length := by
    intro r hr
    rw [zeroVec_length]
    exact mem_scaledRows_length d c es ws r hr
  apply List.ext_getElem
  · rw [foldl_vecAdd_length _ _ hrows, zeroVec_length, hes, weightedAverageSpec_length]
  · intro j hj1 hj2
    have hjd : j < d := by
      rw [foldl_vecAdd_length _ _ hrows, zeroVec_length] at hj1
      exact hj1
    rw [← List.getD_eq_getElem _ 0 hj1, ← List.getD_eq_getElem _ 0 hj2,
      foldl_vecAdd_getD _ _ j (by rw [zeroVec_length]; exact hjd) hrows,
      zeroVec_getD, zero_add]
    have hfun : (fun (e : List ℚ) (w : ℚ) =>
        (vecScale (w / c) (reconcile d e)).getD j 0)
        = fun e w => (w / c) * ((reconcile d e).getD j 0) := by
      funext e w
      exact vecScale_getD _ _ _ (by rw [reconcile_length]; exact hjd)
    have hspec : (weightedAverageSpec es ws).getD j 0
        = ((es.zip ws).map (fun p => (p.2 / c) * ((reconcile d p.1).getD j 0))).sum := by
      rw [hes, List.getD_eq_getElem _ 0 (by rwa [weightedAverageSpec_length, ← hd])]
      unfold weightedAverageSpec
      simp only [List.getElem_map, List.getElem_range, ← hes, ← hd, ← hc]
    rw [hspec, List.map_zipWith, List.zip, List.map_zipWith, hfun]

theorem range_map_getD (v : List ℚ) :
    (List.range v.length).map (fun j => v.getD j 0) = v := by
  apply List.ext_getElem
  · simp
  · intro j h1 h2
    simp only [List.getElem_map, List.getElem_range]
    exact List.getD_eq_getElem v 0 h2

theorem weightedAverage_zero_wsum (e0 : List ℚ) (rest : List (List ℚ))
    (ws : List ℚ) (h : ws.sum = 0) :
    weightedAverage (e0 :: rest) ws = .ok (zeroVec e0.length) := by
  rw [weightedAverage_eq_spec]
  congr 1
  unfold weightedAverageSpec
  apply List.ext_getElem
  · simp [zeroVec_length]
  · intro j h1 h2
    simp only [List.getElem_map, List.getElem_range]
    rw [← List.getD_eq_getElem _ 0 h2, zeroVec_getD]
    apply List.sum_eq_zero
    intro x hx
    rcases List.mem_map.mp hx with ⟨p, _, hp⟩
    rw [← hp, h, div_zero, zero_mul]

theorem weightedAverage_single (v : List ℚ) (w : ℚ) (hw : w ≠ 0) :
    weightedAverage [v] [w] = .ok v := by
  rw [show [v] = v :: ([] : List (List ℚ)) from rfl, weightedAverage_eq_spec]
  congr 1
  unfold weightedAverageSpec
  simp only [List.zip, List.zipWith, List.map_cons, List.map_nil,
    List.sum_cons, List.sum_nil, add_zero]
  have hfun : (fun j => w / w * (reconcile v.length v).getD j 0)
      = fun j => v.getD j 0 := by
    funext j
    rw [div_self hw, one_mul, reconcile_self]
  rw [hfun]
  exact range_map_getD v

theorem weightedAverage_idem (v : List ℚ) :
    weightedAverage [v, v] [1, 1] = .ok v := by
  rw [show [v, v] = v :: [v] from rfl, weightedAverage_eq_spec]
  congr 1
  unfold weightedAverageSpec
  simp only [List.zip, List.zipWith, List.map_cons, List.map_nil,
    List.sum_cons, List.sum_nil, add_zero]
  have hfun : (fun j => 1 / ((1 : ℚ) + 1) * (reconcile v.length v).getD j 0
        + 1 / (1 + 1) * (reconcile v.length v).getD j 0)
      = fun j => v.getD j 0 := by
    funext j
    rw [reconcile_self]
    ring
  rw [hfun]
  exact range_map_getD v

/-! ### Claim theorems about the combiner -/

/-- C2: requesting the combine method max_pool, the string value declared
by the CombineMethod enum, is rejected by the combine dispatch as an
unsupported method (the dispatch matches the string max_pooling, which
the enum does not declare), even though the internal max pooling routine
computes the claimed value on the vectors of the claim: scaling each of
the vectors by weight 1 and taking the elementwise maximum of the two
scaled vectors yields the vector with entries 1 and 1.  The code
contradicts its own declared method name. -/
theorem c2_max_pool_dispatch_bug :
    combineEmbeddings [[1, 0], [0, 1]] [1, 1] (CombineMethod.value .max_pool)
        = .error (.unsupportedMethod "max_pool")
    ∧ maxPooling [[1, 0], [0, 1]] [1, 1] = .ok [1, 1] := by
  constructor
  · decide
  · norm_num [maxPooling, vecScale, reconcile]

/-- C4: the weighted average of the service equals the reference
definition written from the spec (reconcile every vector to the first
length of the first vector by zero padding or truncation, normalize the weights by
their sum, take the weight-scaled elementwise sum); combining a
three-dimensional and a five-dimensional vector yields a
three-dimensional result; and averaging two copies of any vector with
equal weights 1 and 1 returns the vector itself. -/
theorem c4_weighted_average_reference :
    (∀ (e0 : List ℚ) (rest : List (List ℚ)) (ws : List ℚ),
        ws.length = (e0 :: rest).length →
        weightedAverage (e0 :: rest) ws = .ok (weightedAverageSpec (e0 :: rest) ws))
    ∧ (∀ (v3 v5 : List ℚ) (w1 w2 : ℚ), v3.length = 3 → v5.length = 5 →
        ∃ r, weightedAverage [v3, v5] [w1, w2] = .ok r ∧ r.length = 3)
    ∧ (∀ v : List ℚ, weightedAverage [v, v] [1, 1] = .ok v) := by
  refine ⟨fun e0 rest ws _ => weightedAverage_eq_spec e0 rest ws, ?_, weightedAverage_idem⟩
  intro v3 v5 w1 w2 h3 _
  refine ⟨weightedAverageSpec [v3, v5] [w1, w2],
    weightedAverage_eq_spec v3 [v5] [w1, w2], ?_⟩
  rw [weightedAverageSpec_length, h3]

/-- Witness for C4: the refinement at two concrete two-dimensional
vectors, the dimension reconciliation at a concrete three- and
five-dimensional vector, and the equal-weight idempotence at a concrete
vector. -/
theorem c4_weighted_average_reference_witness :
    weightedAverage [[1, 2], [3, 4]] [1, 1]
        = .ok (weightedAverageSpec [[1, 2], [3, 4]] [1, 1])
    ∧ (∃ r, weightedAverage [[1, 2, 3], [10, 20, 30, 40, 50]] [1, 1]
        = .ok r ∧ r.length = 3)
    ∧ weightedAverage [[7, 8], [7, 8]] [1, 1] = .ok [7, 8] :=
  ⟨c4_weighted_average_reference.1 [1, 2] [[3, 4]] [1, 1] (by decide),
    c4_weighted_average_reference.2.1 [1, 2, 3] [10, 20, 30, 40, 50] 1 1
      (by decide) (by decide),
    c4_weighted_average_reference.2.2 [7, 8]⟩

/-- C6 counterexample: the claim says combine fails for every request
with zero fields, but a zero-field request with the concatenate method
returns an empty embedding without any error. -/
theorem c6_combine_empty_fields_counterexample :
    combineEmbeddings [] [] (CombineMethod.value .concatenate) = .ok [] := by
  decide

/-- C6 amended: combine fails with the unsupported-method ValueError for
every method string other than the three the dispatch matches (in
particular for the declared enum values max_pool and sum); with zero
fields the weighted_average and max_pooling paths raise an IndexError,
but the concatenate path returns an empty embedding without error. -/
theorem c6_combine_errors_amended :
    (∀ (es : List (List ℚ)) (ws : List ℚ) (m : String),
        m ≠ "weighted_average" → m ≠ "concatenate" → m ≠ "max_pooling" →
        combineEmbeddings es ws m = .error (.unsupportedMethod m))
    ∧ combineEmbeddings [] [] "weighted_average" = .error .indexError
    ∧ (∀ ws : List ℚ, combineEmbeddings [] ws "max_pooling" = .error .indexError)
    ∧ combineEmbeddings [] [] "concatenate" = .ok [] := by
  refine ⟨?_, by decide, ?_, by decide⟩
  · intro es ws m h1 h2 h3
    simp [combineEmbeddings, h1, h2, h3]
  · intro ws
    simp [combineEmbeddings, maxPooling]

/-- Witness for C6 amended: the unsupported-method clauses applied to
the declared enum values max_pool and sum with concrete vectors, and the
max pooling IndexError clause at an empty weight list. -/
theorem c6_combine_errors_amended_witness :
    combineEmbeddings [[1]] [1] "max_pool" = .error (.unsupportedMethod "max_pool")
    ∧ combineEmbeddings [[1]] [1] "sum" = .error (.unsupportedMethod "sum")
    ∧ combineEmbeddings [] [] "max_pooling" = .error .indexError :=
  ⟨c6_combine_errors_amended.1 [[1]] [1] "max_pool"
      (by decide) (by decide) (by decide),
    c6_combine_errors_amended.1 [[1]] [1] "sum"
      (by decide) (by decide) (by decide),
    c6_combine_errors_amended.2.2.1 []⟩

/-- C9: the weight normalization inside the weighted average is an
unguarded division by the weight sum.  Rational junk-value division
stands in for the non-finite junk numpy produces: when the weights sum
to zero every normalized weight collapses and the combine call still
returns a successful result, the zero vector with the dimension of
the first field, for every input; with a nonzero weight sum a single field is
returned intact.  No branch inspects the weight sum, so a meaningful
finite result requires the precondition that the weights do not sum to
zero. -/
theorem c9_weight_normalization_unguarded :
    (∀ (e0 : List ℚ) (rest : List (List ℚ)) (ws : List ℚ), ws.sum = 0 →
        combineEmbeddings (e0 :: rest) ws "weighted_average"
          = .ok (zeroVec e0.length))
    ∧ (∀ (v : List ℚ) (w : ℚ), w ≠ 0 →
        combineEmbeddings [v] [w] "weighted_average" = .ok v) := by
  constructor
  · intro e0 rest ws h
    show weightedAverage (e0 :: rest) ws = _
    exact weightedAverage_zero_wsum e0 rest ws h
  · intro v w hw
    show weightedAverage [v] [w] = _
    exact weightedAverage_single v w hw

/-- Witness for C9: weights 1 and minus 1 sum to zero and the combine of
two one-dimensional fields silently returns the zero vector; a single
field with weight 2 is returned intact. -/
theorem c9_weight_normalization_unguarded_witness :
    combineEmbeddings [[5], [7]] [1, -1] "weighted_average" = .ok (zeroVec 1)
    ∧ combineEmbeddings [[5, 6]] [2] "weighted_average" = .ok [5, 6] :=
  ⟨c9_weight_normalization_unguarded.1 [5] [[7]] [1, -1] (by norm_num),
    c9_weight_normalization_unguarded.2 [5, 6] 2 (by norm_num)⟩

/-! ### Lemmas about the model manager -/

theorem eraseKey_of_lookup_none (n : String) (l : List (String × ModelData))
    (h : l.lookup n = none) : eraseKey n l = l := by
  induction l with
  | nil => rfl
  | cons p rest ih =>
    obtain ⟨k, v⟩ := p
    by_cases hk : n = k
    · simp [List.lookup_cons, beq_iff_eq.mpr hk] at h
    · have h1 : (n == k) = false := beq_eq_false_iff_ne.mpr hk
      have h2 : (k == n) = false := beq_eq_false_iff_ne.mpr (Ne.symm hk)
      rw [List.lookup_cons, h1] at h
      simp only [eraseKey, List.eraseP_cons, h2, cond_false]
      rw [show (rest.eraseP fun p => p.1 == n) = eraseKey n rest from rfl, ih h]

theorem length_eraseKey_le (n : String) (l : List (String × ModelData)) :
    (eraseKey n l).length ≤ l.length := by
  induction l with
  | nil => simp [eraseKey]
  | cons p rest ih =>
    obtain ⟨k, v⟩ := p
    simp only [eraseKey, List.eraseP_cons] at *
    cases h : (k == n)
    · simpa using ih
    · simp

theorem length_eraseKey_of_lookup_some (n : String)
    (l : List (String × ModelData)) (d : ModelData) (h : l.lookup n = some d) :
    (eraseKey n l).length + 1 = l.length := by
  induction l with
  | nil => simp at h
  | cons p rest ih =>
    obtain ⟨k, v⟩ := p
    by_cases hk : n = k
    · have h2 : (k == n) = true := beq_iff_eq.mpr hk.symm
      simp only [eraseKey, List.eraseP_cons, h2, cond_true, List.length_cons]
    · have h1 : (n == k) = false := beq_eq_false_iff_ne.mpr hk
      have h2 : (k == n) = false := beq_eq_false_iff_ne.mpr (Ne.symm hk)
      rw [List.lookup_cons, h1] at h
      simp only [eraseKey, List.eraseP_cons, h2, cond_false, List.length_cons]
      rw [show (rest.eraseP fun p => p.1 == n) = eraseKey n rest from rfl]
      have := ih h
      omega

theorem lookup_append_of_none {α : Type} (n : String)
    (l1 l2 : List (String × α)) (h : l1.lookup n = none) :
    (l1 ++ l2).lookup n = l2.lookup n := by
  induction l1 with
  | nil => simp
  | cons p rest ih =>
    obtain ⟨k, v⟩ := p
    cases hk : (n == k)
    · rw [List.lookup_cons, hk] at h
      rw [List.cons_append, List.lookup_cons, hk]
      exact ih h
    · rw [List.lookup_cons, hk] at h
      simp at h

theorem updateLastUsed_length (n : String) (ms : List (String × ModelData)) :
    (updateLastUsed n ms).length = ms.length := by
  unfold updateLastUsed
  cases h : ms.lookup n with
  | none => rfl
  | some d =>
    rw [List.length_append, List.length_cons, List.length_nil]
    have := length_eraseKey_of_lookup_some n ms d h
    omega

theorem evictWhile_cap_zero (ms : List (String × ModelData))
    (info : List (String × ModelInfo)) : (evictWhile 0 ms info).1 = [] := by
  induction ms generalizing info with
  | nil => rfl
  | cons p rest ih =>
    obtain ⟨n, d⟩ := p
    rw [evictWhile, if_pos (Nat.zero_le _)]
    exact ih _

theorem evictWhile_length_lt (cap : Nat) (hcap : 0 < cap)
    (ms : List (String × ModelData)) (info : List (String × ModelInfo)) :
    (evictWhile cap ms info).1.length < cap := by
  induction ms generalizing info with
  | nil => simpa [evictWhile] using hcap
  | cons p rest ih =>
    obtain ⟨n, d⟩ := p
    rw [evictWhile]
    split
    · exact ih _
    · next h =>
      show ((n, d) :: rest).length < cap
      omega

theorem evictWhile_models_lookup_none (cap : Nat) (n : String)
    (ms : List (String × ModelData)) (info : List (String × ModelInfo)) :
    ms.lookup n = none → (evictWhile cap ms info).1.lookup n = none := by
  induction ms generalizing info with
  | nil => intro h; simp [evictWhile]
  | cons p rest ih =>
    obtain ⟨k, d⟩ := p
    intro h
    cases hk : (n == k)
    · rw [List.lookup_cons, hk] at h
      rw [evictWhile]
      split
      · exact ih _ h
      · rw [List.lookup_cons, hk]
        exact h
    · rw [List.lookup_cons, hk] at h
      simp at h

theorem lookup_setInfoUnloaded_ne (k n : String)
    (info : List (String × ModelInfo)) (hne : k ≠ n) :
    (setInfoUnloaded k info).lookup n = info.lookup n := by
  induction info with
  | nil => rfl
  | cons p rest ih =>
    obtain ⟨k2, v⟩ := p
    simp only [setInfoUnloaded, List.map_cons]
    by_cases h2 : k2 = k
    · have hnk : (n == k2) = false := by
        apply beq_eq_false_iff_ne.mpr
        rw [h2]
        exact fun hh => hne hh.symm
      rw [if_pos h2]
      rw [List.lookup_cons, List.lookup_cons, hnk]
      exact ih
    · rw [if_neg h2]
      cases hnk : (n == k2)
      · rw [List.lookup_cons, List.lookup_cons, hnk]
        exact ih
      · rw [List.lookup_cons, List.lookup_cons, hnk]

theorem evictWhile_info_lookup (cap : Nat) (n : String)
    (ms : List (String × ModelData)) (info : List (String × ModelInfo)) :
    ms.lookup n = none → (evictWhile cap ms info).2.lookup n = info.lookup n := by
  induction ms generalizing info with
  | nil => intro h; rfl
  | cons p rest ih =>
    obtain ⟨k, d⟩ := p
    intro h
    cases hk : (n == k)
    · rw [List.lookup_cons, hk] at h
      rw [evictWhile]
      split
      · rw [ih _ h, lookup_setInfoUnloaded_ne]
        exact fun hh => by simp [beq_iff_eq.mpr hh.symm] at hk
      · rfl
    · rw [List.lookup_cons, hk] at h
      simp at h

theorem ensureMemoryAvailable_models (cap : Nat) (s : ManagerState) :
    (ensureMemoryAvailable cap s).models = (evictWhile cap s.models s.modelInfo).1 := rfl

theorem loadModel_length_le (cap : Nat)
    (loader : String → ModelType → Option ModelData) (name : String)
    (mtype : ModelType) (force : Bool) (s : ManagerState)
    (h : s.models.length ≤ cap) :
    (loadModel cap loader name mtype force s).1.models.length ≤ cap := by
  unfold loadModel
  split
  · show (updateLastUsed name s.models).length ≤ cap
    rw [updateLastUsed_length]
    exact h
  · split
    · next hcap =>
      show (evictWhile cap s.models s.modelInfo).1.length ≤ cap
      rw [hcap, evictWhile_cap_zero]
      exact Nat.zero_le _
    · next hcap =>
      have hlt : (evictWhile cap s.models s.modelInfo).1.length < cap :=
        evictWhile_length_lt cap (Nat.pos_of_ne_zero hcap) s.models s.modelInfo
      split
      · show (evictWhile cap s.models s.modelInfo).1.length ≤ cap
        omega
      · show (eraseKey name (ensureMemoryAvailable cap s).models
            ++ [(name, _)]).length ≤ cap
        rw [List.length_append, List.length_cons, List.length_nil,
          ensureMemoryAvailable_models]
        have := length_eraseKey_le name (evictWhile cap s.models s.modelInfo).1
        omega

theorem getEmbeddingStep_length_le (cap : Nat)
    (loader : String → ModelType → Option ModelData) (name : String)
    (s : ManagerState) (h : s.models.length ≤ cap) :
    (getEmbeddingStep cap loader name s).1.models.length ≤ cap := by
  unfold getEmbeddingStep
  split
  · exact h
  · split
    · exact loadModel_length_le _ _ _ _ _ _ h
    · exact h

theorem getEmbedding_length_le (cap : Nat)
    (loader : String → ModelType → Option ModelData)
    (encode : ModelData → ModelType → String → List ℚ)
    (name : String) (content : List String) (ctype : ModelType)
    (s : ManagerState) (h : s.models.length ≤ cap) :
    (getEmbedding cap loader encode name content ctype s).1.models.length ≤ cap := by
  have h1 := getEmbeddingStep_length_le cap loader name s h
  unfold getEmbedding
  split
  · exact h1
  · split
    · exact h1
    · cases ctype
      all_goals
        show (updateLastUsed name (getEmbeddingStep cap loader name s).1.models).length ≤ cap
      all_goals rw [updateLastUsed_length]
      all_goals exact h1

theorem foldl_applyOp_length_le (cap : Nat)
    (loader : String → ModelType → Option ModelData)
    (encode : ModelData → ModelType → String → List ℚ)
    (ops : List Op) (s : ManagerState) (h : s.models.length ≤ cap) :
    (ops.foldl (applyOp cap loader encode) s).models.length ≤ cap := by
  induction ops generalizing s with
  | nil => exact h
  | cons op rest ih =>
    rw [List.foldl_cons]
    apply ih
    cases op with
    | load n t f => exact loadModel_length_le _ _ _ _ _ _ h
    | embed n c t => exact getEmbedding_length_le _ _ _ _ _ _ _ h

theorem loadModel_fresh_success (cap : Nat)
    (loader : String → ModelType → Option ModelData) (name : String)
    (mtype : ModelType) (s : ManagerState) (md : ModelData)
    (hres : s.models.lookup name = none) (hld : loader name mtype = some md)
    (hcap : cap ≠ 0) :
    loadModel cap loader name mtype false s
      = (⟨eraseKey name (ensureMemoryAvailable cap s).models ++ [(name, md)],
            setInfo name
              ⟨name, mtype, md.dimensions, true,
                (availableModels.lookup name).map (fun e => e.description)⟩
              (ensureMemoryAvailable cap s).modelInfo⟩,
          some ⟨name, mtype, md.dimensions, true,
            (availableModels.lookup name).map (fun e => e.description)⟩) := by
  unfold loadModel
  rw [if_neg (by simp [hres]), if_neg hcap, hld]

theorem loadModel_fresh_lookup (cap : Nat)
    (loader : String → ModelType → Option ModelData) (name : String)
    (mtype : ModelType) (s : ManagerState) (md : ModelData)
    (hres : s.models.lookup name = none) (hld : loader name mtype = some md)
    (hcap : cap ≠ 0) :
    (loadModel cap loader name mtype false s).1.models.lookup name = some md
    ∧ (loadModel cap loader name mtype false s).2.isSome := by
  rw [loadModel_fresh_success cap loader name mtype s md hres hld hcap]
  have h1 : (ensureMemoryAvailable cap s).models.lookup name = none :=
    evictWhile_models_lookup_none cap name s.models s.modelInfo hres
  constructor
  · show (eraseKey name (ensureMemoryAvailable cap s).models
        ++ [(name, md)]).lookup name = some md
    rw [eraseKey_of_lookup_none _ _ h1, lookup_append_of_none _ _ _ h1]
    simp [List.lookup_cons]
  · rfl

/-! ### Concrete loaders and encoders used in the scenarios -/

/-- A loader whose every load succeeds with a four-dimensional model. -/
def alwaysLoader : String → ModelType → Option ModelData := fun _ _ => some ⟨4⟩

/-- A loader whose every load fails. -/
def failLoader : String → ModelType → Option ModelData := fun _ _ => none

/-- A loader that succeeds with the dimensionality declared by the
static registry. -/
def registryLoader : String → ModelType → Option ModelData := fun n _ =>
  some ⟨((availableModels.lookup n).map (fun e => e.dimensions)).getD 0⟩

/-- An encode oracle producing the zero vector of the recorded
dimensionality of the loaded model. -/
def dimsEncode : ModelData → ModelType → String → List ℚ := fun md _ _ =>
  List.replicate md.dimensions 0

/-- The manager state with capacity one after loading the registry text
model all-MiniLM-L6-v2 and then all-mpnet-base-v2: the second load
evicts the first. -/
def evictedState : ManagerState :=
  runOps 1 registryLoader dimsEncode
    [ .load "sentence-transformers/all-MiniLM-L6-v2" .text false,
      .load "sentence-transformers/all-mpnet-base-v2" .text false ]

/-! ### Claim theorems about the model manager -/

/-- C1: for every capacity, every loader and encode backend, and every
sequence of load_model and get_embedding calls starting from the
construction-time state, the number of resident models stays at most the
capacity: every call either preserves residency (cache hits only reorder
recency) or runs the eviction loop of the capacity check before
inserting. -/
theorem c1_cache_capacity_invariant (cap : Nat)
    (loader : String → ModelType → Option ModelData)
    (encode : ModelData → ModelType → String → List ℚ) (ops : List Op) :
    (runOps cap loader encode ops).models.length ≤ cap :=
  foldl_applyOp_length_le cap loader encode ops initialState (Nat.zero_le cap)

/-- C3: strict LRU order by access recency.  With capacity two, loading
model A, then model B, then a get_embedding access of resident A (which
moves A to the most-recently-used end), loading C evicts B, the least
recently used entry, and leaves A resident together with C. -/
theorem c3_lru_eviction_order :
    (runOps 2 alwaysLoader dimsEncode
      [ .load "A" .text false, .load "B" .text false,
        .embed "A" ["x"] .text, .load "C" .text false ]).models.map Prod.fst
      = ["A", "C"] := by
  decide

/-- C5: get_embedding on a non-resident name that is not in the static
registry fails with the model-not-loaded ValueError and leaves the state
untouched; on a non-resident name in the registry (for instance one
evicted earlier) the model is auto-loaded, the call succeeds, and when
the backend produces vectors of the recorded dimensionality of the
loaded model every returned vector has that length; on a resident
name the call succeeds without any error. -/
theorem c5_get_embedding_autoload :
    (∀ (cap : Nat) (loader : String → ModelType → Option ModelData)
        (encode : ModelData → ModelType → String → List ℚ)
        (name : String) (content : List String) (ctype : ModelType)
        (s : ManagerState),
        s.models.lookup name = none → availableModels.lookup name = none →
        getEmbedding cap loader encode name content ctype s
          = (s, .error (.modelNotLoaded name)))
    ∧ (∀ (cap : Nat) (loader : String → ModelType → Option ModelData)
        (encode : ModelData → ModelType → String → List ℚ)
        (name : String) (entry : RegistryEntry) (md : ModelData)
        (content : List String) (s : ManagerState),
        cap ≠ 0 → s.models.lookup name = none →
        availableModels.lookup name = some entry →
        loader name entry.type = some md →
        (getEmbedding cap loader encode name content .text s).2
          = .ok (content.map (encode md .text))
        ∧ ((∀ t, (encode md .text t).length = md.dimensions) →
            ∀ v ∈ content.map (encode md .text), v.length = md.dimensions))
    ∧ (∀ (cap : Nat) (loader : String → ModelType → Option ModelData)
        (encode : ModelData → ModelType → String → List ℚ)
        (name : String) (md : ModelData) (content : List String)
        (s : ManagerState),
        s.models.lookup name = some md →
        (getEmbedding cap loader encode name content .text s).2
          = .ok (content.map (encode md .text))) := by
  refine ⟨?_, ?_, ?_⟩
  · intro cap loader encode name content ctype s hres hreg
    have hstep : getEmbeddingStep cap loader name s
        = (s, some (.modelNotLoaded name)) := by
      unfold getEmbeddingStep
      rw [if_neg (by simp [hres]), hreg]
    unfold getEmbedding
    rw [hstep]
  · intro cap loader encode name entry md content s hcap hres hreg hld
    have hfresh := loadModel_fresh_lookup cap loader name entry.type s md hres hld hcap
    have hstep : getEmbeddingStep cap loader name s
        = ((loadModel cap loader name entry.type false s).1, none) := by
      unfold getEmbeddingStep
      rw [if_neg (by simp [hres]), hreg]
      simp only [hfresh.2, if_true]
    constructor
    · unfold getEmbedding
      rw [hstep]
      show (match ((loadModel cap loader name entry.type false s).1.models.lookup name :
          Option ModelData) with
        | none => ((loadModel cap loader name entry.type false s).1,
            (.error .loadFailed : Except EmbError (List (List ℚ))))
        | some md =>
          (⟨updateLastUsed name (loadModel cap loader name entry.type false s).1.models,
              (loadModel cap loader name entry.type false s).1.modelInfo⟩,
            .ok (content.map (encode md .text)))).2 = _
      rw [hfresh.1]
    · intro henc v hv
      rcases List.mem_map.mp hv with ⟨t, _, ht⟩
      rw [← ht, henc t]
  · intro cap loader encode name md content s hres
    have hstep : getEmbeddingStep cap loader name s = (s, none) := by
      unfold getEmbeddingStep
      rw [if_pos (by simp [hres])]
    unfold getEmbedding
    rw [hstep]
    show (match (s.models.lookup name : Option ModelData) with
      | none => (s, (.error .loadFailed : Except EmbError (List (List ℚ))))
      | some md =>
        (⟨updateLastUsed name s.models, s.modelInfo⟩,
          .ok (content.map (encode md .text)))).2 = _
    rw [hres]

/-- Witness for C5: an unknown name fails with the model-not-loaded
error; the registry model all-MiniLM-L6-v2, evicted by a later load at
capacity one, is auto-loaded on request and returns one vector of its
declared 384 dimensions; a resident model is served without error. -/
theorem c5_get_embedding_autoload_witness :
    getEmbedding 1 registryLoader dimsEncode "missing-model" ["hi"] .text
        initialState = (initialState, .error (.modelNotLoaded "missing-model"))
    ∧ (getEmbedding 1 registryLoader dimsEncode
          "sentence-transformers/all-MiniLM-L6-v2" ["hi"] .text evictedState).2
        = .ok (["hi"].map (dimsEncode ⟨384⟩ .text))
    ∧ (∀ v ∈ ["hi"].map (dimsEncode ⟨384⟩ .text), v.length = (384 : Nat))
    ∧ (getEmbedding 1 registryLoader dimsEncode "A" ["x"] .text
          (⟨[("A", ⟨4⟩)], []⟩ : ManagerState)).2
        = .ok (["x"].map (dimsEncode ⟨4⟩ .text)) := by
  refine ⟨?_, ?_, ?_, ?_⟩
  · exact c5_get_embedding_autoload.1 1 registryLoader dimsEncode
      "missing-model" ["hi"] .text initialState (by decide) (by decide)
  · exact (c5_get_embedding_autoload.2.1 1 registryLoader dimsEncode
      "sentence-transformers/all-MiniLM-L6-v2"
      ⟨.text, 384, "Fast and efficient text embedding model", false⟩ ⟨384⟩
      ["hi"] evictedState (by decide) (by decide) (by decide) (by decide)).1
  · exact (c5_get_embedding_autoload.2.1 1 registryLoader dimsEncode
      "sentence-transformers/all-MiniLM-L6-v2"
      ⟨.text, 384, "Fast and efficient text embedding model", false⟩ ⟨384⟩
      ["hi"] evictedState (by decide) (by decide) (by decide) (by decide)).2
      (fun t => List.length_replicate 384 0)
  · exact c5_get_embedding_autoload.2.2 1 registryLoader dimsEncode "A" ⟨4⟩
      ["x"] ⟨[("A", ⟨4⟩)], []⟩ (by decide)

/-- C10: a failed load is not atomic.  When the loader raises for a
non-resident name, load_model returns no ModelInfo, the name is neither
inserted into the cache nor recorded in the model-info dict, but the
least-recently-used evictions the capacity check performed before the
failed load persist: at capacity one a failed load of B against a cache
holding only A leaves the cache empty. -/
theorem c10_load_failure_not_atomic :
    (∀ (cap : Nat) (loader : String → ModelType → Option ModelData)
        (name : String) (mtype : ModelType) (force : Bool) (s : ManagerState),
        loader name mtype = none → s.models.lookup name = none →
        (loadModel cap loader name mtype force s).2 = none
        ∧ (loadModel cap loader name mtype force s).1 = ensureMemoryAvailable cap s
        ∧ (ensureMemoryAvailable cap s).models.lookup name = none
        ∧ (ensureMemoryAvailable cap s).modelInfo.lookup name
            = s.modelInfo.lookup name)
    ∧ (loadModel 1 failLoader "B" .text false
        (⟨[("A", ⟨4⟩)], []⟩ : ManagerState)).1.models = [] := by
  constructor
  · intro cap loader name mtype force s hld hres
    have hmain : loadModel cap loader name mtype force s
        = (ensureMemoryAvailable cap s, none) := by
      unfold loadModel
      rw [if_neg (by simp [hres])]
      by_cases hcap : cap = 0
      · rw [if_pos hcap]
      · rw [if_neg hcap, hld]
    exact ⟨by rw [hmain], by rw [hmain],
      evictWhile_models_lookup_none cap name s.models s.modelInfo hres,
      evictWhile_info_lookup cap name s.models s.modelInfo hres⟩
  · decide

/-- Witness for C10: at capacity one, a failed load of the non-resident
name B against a state holding only A returns no info, leaves B absent
from both dicts, and the persisting eviction has emptied the cache. -/
theorem c10_load_failure_not_atomic_witness :
    (loadModel 1 failLoader "B" .text false
        (⟨[("A", ⟨4⟩)], []⟩ : ManagerState)).2 = none
    ∧ (loadModel 1 failLoader "B" .text false
        (⟨[("A", ⟨4⟩)], []⟩ : ManagerState)).1
        = ensureMemoryAvailable 1 ⟨[("A", ⟨4⟩)], []⟩
    ∧ (ensureMemoryAvailable 1
        (⟨[("A", ⟨4⟩)], []⟩ : ManagerState)).models.lookup "B" = none
    ∧ (ensureMemoryAvailable 1
        (⟨[("A", ⟨4⟩)], []⟩ : ManagerState)).modelInfo.lookup "B"
        = (⟨[("A", ⟨4⟩)], []⟩ : ManagerState).modelInfo.lookup "B" :=
  c10_load_failure_not_atomic.1 1 failLoader "B" .text false
    ⟨[("A", ⟨4⟩)], []⟩ rfl (by decide)

/-- C7: dimensionality resolution of the native raw-transformers backend
follows the declared order of preference: the configuration attribute
text_config.hidden_size, then projection_dim, then hidden_size, then
text_embed_dim; when no attribute exists, the width of a probe text
encode; when the probe raises, the dimensions declared by the
registry; absent all of those, the backend-family default 512. -/
theorem c7_native_dimension_resolution :
    (∀ (cfg : CLIPConfig) (probe registryDims : Option Nat) (d : Nat),
        cfg.text_config_hidden_size = some d →
        resolveNativeDimensions cfg probe registryDims = d)
    ∧ (∀ (cfg : CLIPConfig) (probe registryDims : Option Nat) (d : Nat),
        cfg.text_config_hidden_size = none → cfg.projection_dim = some d →
        resolveNativeDimensions cfg probe registryDims = d)
    ∧ (∀ (cfg : CLIPConfig) (probe registryDims : Option Nat) (d : Nat),
        cfg.text_config_hidden_size = none → cfg.projection_dim = none →
        cfg.hidden_size = some d →
        resolveNativeDimensions cfg probe registryDims = d)
    ∧ (∀ (cfg : CLIPConfig) (probe registryDims : Option Nat) (d : Nat),
        cfg.text_config_hidden_size = none → cfg.projection_dim = none →
        cfg.hidden_size = none → cfg.text_embed_dim = some d →
        resolveNativeDimensions cfg probe registryDims = d)
    ∧ (∀ (cfg : CLIPConfig) (registryDims : Option Nat) (d : Nat),
        cfg.text_config_hidden_size = none → cfg.projection_dim = none →
        cfg.hidden_size = none → cfg.text_embed_dim = none →
        resolveNativeDimensions cfg (some d) registryDims = d)
    ∧ (∀ (cfg : CLIPConfig) (d : Nat),
        cfg.text_config_hidden_size = none → cfg.projection_dim = none →
        cfg.hidden_size = none → cfg.text_embed_dim = none →
        resolveNativeDimensions cfg none (some d) = d)
    ∧ (∀ cfg : CLIPConfig,
        cfg.text_config_hidden_size = none → cfg.projection_dim = none →
        cfg.hidden_size = none → cfg.text_embed_dim = none →
        resolveNativeDimensions cfg none none = 512) := by
  refine ⟨?_, ?_, ?_, ?_, ?_, ?_, ?_⟩
  · intro cfg probe registryDims d h1
    simp [resolveNativeDimensions, h1]
  · intro cfg probe registryDims d h1 h2
    simp [resolveNativeDimensions, h1, h2]
  · intro cfg probe registryDims d h1 h2 h3
    simp [resolveNativeDimensions, h1, h2, h3]
  · intro cfg probe registryDims d h1 h2 h3 h4
    simp [resolveNativeDimensions, h1, h2, h3, h4]
  · intro cfg registryDims d h1 h2 h3 h4
    simp [resolveNativeDimensions, h1, h2, h3, h4]
  · intro cfg d h1 h2 h3 h4
    simp [resolveNativeDimensions, h1, h2, h3, h4]
  · intro cfg h1 h2 h3 h4
    simp [resolveNativeDimensions, h1, h2, h3, h4]

/-- Witness for C7: each of the seven preference levels evaluated at a
concrete configuration. -/
theorem c7_native_dimension_resolution_witness :
    resolveNativeDimensions ⟨some 768, some 1, some 2, some 3⟩ (some 4) (some 5) = 768
    ∧ resolveNativeDimensions ⟨none, some 640, some 2, some 3⟩ (some 4) (some 5) = 640
    ∧ resolveNativeDimensions ⟨none, none, some 1024, some 3⟩ (some 4) (some 5) = 1024
    ∧ resolveNativeDimensions ⟨none, none, none, some 256⟩ (some 4) (some 5) = 256
    ∧ resolveNativeDimensions ⟨none, none, none, none⟩ (some 384) (some 5) = 384
    ∧ resolveNativeDimensions ⟨none, none, none, none⟩ none (some 768) = 768
    ∧ resolveNativeDimensions ⟨none, none, none, none⟩ none none = 512 :=
  ⟨c7_native_dimension_resolution.1 ⟨some 768, some 1, some 2, some 3⟩
      (some 4) (some 5) 768 rfl,
    c7_native_dimension_resolution.2.1 ⟨none, some 640, some 2, some 3⟩
      (some 4) (some 5) 640 rfl rfl,
    c7_native_dimension_resolution.2.2.1 ⟨none, none, some 1024, some 3⟩
      (some 4) (some 5) 1024 rfl rfl rfl,
    c7_native_dimension_resolution.2.2.2.1 ⟨none, none, none, some 256⟩
      (some 4) (some 5) 256 rfl rfl rfl rfl,
    c7_native_dimension_resolution.2.2.2.2.1 ⟨none, none, none, none⟩
      (some 5) 384 rfl rfl rfl rfl,
    c7_native_dimension_resolution.2.2.2.2.2.1 ⟨none, none, none, none⟩
      768 rfl rfl rfl rfl,
    c7_native_dimension_resolution.2.2.2.2.2.2 ⟨none, none, none, none⟩
      rfl rfl rfl rfl⟩

/-! ### Lemmas about the final normalization -/

theorem sumSq_nonneg (v : List ℝ) : 0 ≤ (v.map (fun x => x ^ 2)).sum := by
  apply List.sum_nonneg
  intro x hx
  rcases List.mem_map.mp hx with ⟨y, _, hy⟩
  rw [← hy]
  exact sq_nonneg y

theorem l2norm_eq_zero_of_forall_zero (v : List ℝ) (h : ∀ x ∈ v, x = 0) :
    l2norm v = 0 := by
  unfold l2norm
  rw [List.sum_eq_zero, Real.sqrt_zero]
  intro x hx
  rcases List.mem_map.mp hx with ⟨y, hy, hxy⟩
  rw [← hxy, h y hy]
  norm_num

theorem l2norm_pos (v : List ℝ) (h : ∃ x ∈ v, x ≠ 0) : 0 < l2norm v := by
  rcases h with ⟨x, hx, hxne⟩
  apply Real.sqrt_pos.mpr
  have h1 : x ^ 2 ≤ (v.map (fun x => x ^ 2)).sum := by
    apply List.single_le_sum
    · intro y hy
      rcases List.mem_map.mp hy with ⟨z, _, hz⟩
      rw [← hz]
      exact sq_nonneg z
    · exact List.mem_map_of_mem _ hx
  have h2 : 0 < x ^ 2 :=
    lt_of_le_of_ne (sq_nonneg x) (Ne.symm (pow_ne_zero 2 hxne))
  linarith

/-- C8: the final unit normalization is applied only when the caller
requests it; a vector all of whose entries are zero is returned
unchanged because the division is guarded by a positive-norm check, so
no division by zero can occur; a vector with some nonzero entry is
scaled to Euclidean norm exactly one; and the batch normalization of
the embedding service performs the same guarded per-vector
normalization. -/
theorem c8_final_normalization :
    (∀ v : List ℝ, applyFinalNormalization false v = v)
    ∧ (∀ v : List ℝ, applyFinalNormalization true v = normalizeEmbedding v)
    ∧ (∀ v : List ℝ, (∀ x ∈ v, x = 0) → normalizeEmbedding v = v)
    ∧ (∀ v : List ℝ, (∃ x ∈ v, x ≠ 0) → l2norm (normalizeEmbedding v) = 1)
    ∧ (∀ es : List (List ℝ), normalizeEmbeddings es = es.map normalizeEmbedding) := by
  refine ⟨fun v => rfl, fun v => rfl, ?_, ?_, fun es => rfl⟩
  · intro v h
    simp [normalizeEmbedding, l2norm_eq_zero_of_forall_zero v h]
  · intro v h
    have hpos := l2norm_pos v h
    unfold normalizeEmbedding
    rw [if_pos hpos]
    generalize hc : l2norm v = c at hpos ⊢
    rw [show l2norm (v.map fun x => x / c)
        = Real.sqrt (((v.map fun x => x / c).map (fun x => x ^ 2)).sum) from rfl,
      List.map_map]
    have hfun : ((fun x => x ^ 2) ∘ fun x => x / c)
        = fun x => x ^ 2 * (c ^ 2)⁻¹ := by
      funext x
      show (x / c) ^ 2 = x ^ 2 * (c ^ 2)⁻¹
      rw [div_pow, div_eq_mul_inv]
    rw [hfun, List.sum_map_mul_right, Real.sqrt_mul (sumSq_nonneg v),
      Real.sqrt_inv, Real.sqrt_sq (le_of_lt hpos),
      show Real.sqrt ((v.map fun x => x ^ 2)).sum = l2norm v from rfl, hc]
    exact mul_inv_cancel₀ (ne_of_gt hpos)

/-- Witness for C8: the skipped normalization, the zero vector, and the
vector with entries 3 and 4 whose normalization has norm one. -/
theorem c8_final_normalization_witness :
    applyFinalNormalization false [3, 4] = [3, 4]
    ∧ normalizeEmbedding [0, 0] = [0, 0]
    ∧ l2norm (normalizeEmbedding [3, 4]) = 1 :=
  ⟨c8_final_normalization.1 [3, 4],
    c8_final_normalization.2.2.1 [0, 0]
      (by intro x hx; rcases List.mem_cons.mp hx with h | h
          · exact h
          · simpa using h),
    c8_final_normalization.2.2.2.1 [3, 4] ⟨3, by simp, by norm_num⟩⟩

end ManticoreManager
